import Mathlib

/-!
Shallow embedding of `src/contracts/Social_Graph_NFT_Fhe.sol`
(contract `SocialGraphNftFhe`).

Modelling choices:
* Addresses, timestamps and `uint256` values are `Nat` (the contract never
  performs arithmetic that can overflow a `uint256` in the claims at issue;
  `uint32` arithmetic inside FHE addition is taken modulo `2 ^ 32`).
* An `euint32` ciphertext is an opaque handle, modelled as a `Nat`.
  Handle `0` is the default (uninitialized) handle, mirroring fhevm where the
  zero handle is the uninitialized value and `FHE.isInitialized` tests it.
  Each `FHE.asEuint32` / `FHE.add` allocates a fresh handle; a counter
  `fheNext` in the state supplies fresh handles and a valuation
  `fheVal : Nat → Nat` records the cleartext (mod `2 ^ 32`) of each handle.
  `FHE.toBytes32 h` is the handle itself.
* `keccak256(abi.encode(cts, address(this)))` is modelled by the injective
  constructor `HashV.keccak cts addr`; the distinguished value `HashV.zero`
  is `bytes32(0)` (the default storage value).  That keccak output is never
  the all-zero word is the standard cryptographic assumption the contract's
  code relies on.
* A reverting call returns `.error e`: no state change and no events, which
  is exactly the EVM's revert semantics.
* External inputs (the caller, `block.timestamp`, the oracle's request id,
  the decryption result bytes and whether `FHE.checkSignatures` accepts the
  proof) are parameters of the corresponding operations.
-/

/-- The contract's custom errors, in source order. -/
inductive Err where
  | NotOwner
  | NotProvider
  | Paused
  | CooldownActive
  | BatchClosed
  | InvalidArgument
  | ReplayAttempt
  | StateMismatch
  | InvalidProof
  | AlreadyInitialized
  | NotInitialized
deriving DecidableEq, Repr

/-- Model of a `bytes32` used as an integrity hash: either the default
zero word or an (injective) keccak image of a ciphertext-handle list and
the contract address. -/
inductive HashV where
  | zero
  | keccak (cts : List Nat) (addr : Nat)
deriving DecidableEq, Repr

/-- The contract's events. -/
inductive Event where
  | ProviderAdded (provider : Nat)
  | ProviderRemoved (provider : Nat)
  | CooldownSecondsUpdated (oldCooldown newCooldown : Nat)
  | PausedEvt (account : Nat)
  | UnpausedEvt (account : Nat)
  | BatchOpened (batchId : Nat)
  | BatchClosedEvt (batchId : Nat)
  | ConnectionSubmitted (user batchId encryptedConnectionsCount : Nat)
  | DecryptionRequested (requestId batchId : Nat)
  | DecryptionCompleted (requestId batchId totalConnections : Nat)
deriving DecidableEq, Repr

/-- struct DecryptionContext. Default storage value: batchId 0, zero hash,
not processed. -/
structure DecryptionContext where
  batchId : Nat
  stateHash : HashV
  processed : Bool
deriving DecidableEq, Repr

/-- `2 ^ 32`, the modulus of `euint32` cleartexts. -/
def W32 : Nat := 2 ^ 32

/-- `address(this)`, a fixed constant of the deployed instance (only its
identity matters, it is mixed into the integrity hash). -/
def thisAddr : Nat := 1

/-- The contract's storage, together with the FHE handle environment
(`fheNext`, `fheVal`) that gives meaning to ciphertext handles. -/
structure State where
  owner : Nat
  isProvider : Nat → Bool
  paused : Bool
  cooldownSeconds : Nat
  lastSubmissionTime : Nat → Nat
  lastDecryptionRequestTime : Nat → Nat
  currentBatchId : Nat
  batchOpen : Bool
  encryptedTotalConnections : Nat → Nat
  encryptedUserConnections : Nat → Nat → Nat
  decryptionContexts : Nat → DecryptionContext
  fheNext : Nat
  fheVal : Nat → Nat

/-- The constructor: deployer becomes owner and provider, cooldown 60 s,
no batch yet.  All mappings hold their default values; handle allocation
starts at 1 so that handle 0 stays the uninitialized handle. -/
def deploy (deployer : Nat) : State where
  owner := deployer
  isProvider := fun a => if a = deployer then true else false
  paused := false
  cooldownSeconds := 60
  lastSubmissionTime := fun _ => 0
  lastDecryptionRequestTime := fun _ => 0
  currentBatchId := 0
  batchOpen := false
  encryptedTotalConnections := fun _ => 0
  encryptedUserConnections := fun _ _ => 0
  decryptionContexts := fun _ => ⟨0, HashV.zero, false⟩
  fheNext := 1
  fheVal := fun _ => 0

/-- function addProvider (onlyOwner; zero address rejected). -/
def addProvider (s : State) (sender provider : Nat) :
    Except Err (State × List Event) :=
  if sender ≠ s.owner then .error .NotOwner
  else if provider = 0 then .error .InvalidArgument
  else .ok
    ({ s with isProvider := fun a => if a = provider then true else s.isProvider a },
     [.ProviderAdded provider])

/-- function removeProvider (onlyOwner; non-provider argument rejected). -/
def removeProvider (s : State) (sender provider : Nat) :
    Except Err (State × List Event) :=
  if sender ≠ s.owner then .error .NotOwner
  else if ¬ s.isProvider provider then .error .InvalidArgument
  else .ok
    ({ s with isProvider := fun a => if a = provider then false else s.isProvider a },
     [.ProviderRemoved provider])

/-- function setCooldownSeconds (onlyOwner; zero rejected). -/
def setCooldownSeconds (s : State) (sender newCooldown : Nat) :
    Except Err (State × List Event) :=
  if sender ≠ s.owner then .error .NotOwner
  else if newCooldown = 0 then .error .InvalidArgument
  else .ok
    ({ s with cooldownSeconds := newCooldown },
     [.CooldownSecondsUpdated s.cooldownSeconds newCooldown])

/-- function pause (onlyOwner whenNotPaused). -/
def pause (s : State) (sender : Nat) : Except Err (State × List Event) :=
  if sender ≠ s.owner then .error .NotOwner
  else if s.paused then .error .Paused
  else .ok ({ s with paused := true }, [.PausedEvt sender])

/-- function unpause (onlyOwner, no guard). -/
def unpause (s : State) (sender : Nat) : Except Err (State × List Event) :=
  if sender ≠ s.owner then .error .NotOwner
  else .ok ({ s with paused := false }, [.UnpausedEvt sender])

/-- function openBatch (onlyProvider whenNotPaused): rejects if a batch is
already open, else increments the id, opens, and initializes the new
batch's aggregate to a fresh encrypted zero. -/
def openBatch (s : State) (sender : Nat) : Except Err (State × List Event) :=
  if ¬ s.isProvider sender then .error .NotProvider
  else if s.paused then .error .Paused
  else if s.batchOpen then .error .InvalidArgument
  else
    let newId := s.currentBatchId + 1
    let h := s.fheNext
    .ok
      ({ s with
          currentBatchId := newId
          batchOpen := true
          encryptedTotalConnections := fun b =>
            if b = newId then h else s.encryptedTotalConnections b
          fheNext := s.fheNext + 1
          fheVal := fun x => if x = h then 0 else s.fheVal x },
       [.BatchOpened newId])

/-- function closeBatch (onlyProvider whenNotPaused): rejects if no batch is
open, else only clears the open flag. -/
def closeBatch (s : State) (sender : Nat) : Except Err (State × List Event) :=
  if ¬ s.isProvider sender then .error .NotProvider
  else if s.paused then .error .Paused
  else if ¬ s.batchOpen then .error .InvalidArgument
  else .ok ({ s with batchOpen := false }, [.BatchClosedEvt s.currentBatchId])

/-- function submitEncryptedConnections (onlyProvider whenNotPaused
submissionCooldown): stores the ciphertext as the user's latest per-batch
contribution and homomorphically adds it into the batch aggregate
(allocating a fresh handle for the new aggregate). -/
def submitEncryptedConnections (s : State) (sender now user encryptedCount : Nat) :
    Except Err (State × List Event) :=
  if ¬ s.isProvider sender then .error .NotProvider
  else if s.paused then .error .Paused
  else if now < s.lastSubmissionTime sender + s.cooldownSeconds then .error .CooldownActive
  else if ¬ s.batchOpen then .error .BatchClosed
  else if encryptedCount = 0 then .error .NotInitialized
  else
    let b := s.currentBatchId
    let h := s.fheNext
    let newVal := (s.fheVal (s.encryptedTotalConnections b) + s.fheVal encryptedCount) % W32
    .ok
      ({ s with
          lastSubmissionTime := fun a =>
            if a = sender then now else s.lastSubmissionTime a
          encryptedUserConnections := fun b' u =>
            if b' = b ∧ u = user then encryptedCount else s.encryptedUserConnections b' u
          encryptedTotalConnections := fun b' =>
            if b' = b then h else s.encryptedTotalConnections b'
          fheNext := s.fheNext + 1
          fheVal := fun x => if x = h then newVal else s.fheVal x },
       [.ConnectionSubmitted user b encryptedCount])

/-- function requestTotalConnectionsDecryption (onlyProvider whenNotPaused
decryptionCooldown): range- and initialization-checks the batch, snapshots
an integrity hash over the exported aggregate ciphertext, and stores a new
context keyed by the oracle-returned `requestId`. -/
def requestTotalConnectionsDecryption (s : State) (sender now batchId requestId : Nat) :
    Except Err (State × List Event) :=
  if ¬ s.isProvider sender then .error .NotProvider
  else if s.paused then .error .Paused
  else if now < s.lastDecryptionRequestTime sender + s.cooldownSeconds then
    .error .CooldownActive
  else if batchId = 0 ∨ s.currentBatchId < batchId then .error .InvalidArgument
  else if s.encryptedTotalConnections batchId = 0 then .error .NotInitialized
  else
    let h := s.encryptedTotalConnections batchId
    let sh := HashV.keccak [h] thisAddr
    .ok
      ({ s with
          lastDecryptionRequestTime := fun a =>
            if a = sender then now else s.lastDecryptionRequestTime a
          decryptionContexts := fun r =>
            if r = requestId then ⟨batchId, sh, false⟩ else s.decryptionContexts r },
       [.DecryptionRequested requestId batchId])

/-- function myCallback: replay check, then integrity-hash check over the
current aggregate of the context's batch, then proof check, then decode;
only then flips `processed` and emits completion.  `cleartext` is the
decoded `uint32`; `proofOk` is the verdict of `FHE.checkSignatures`. -/
def myCallback (s : State) (requestId cleartext : Nat) (proofOk : Bool) :
    Except Err (State × List Event) :=
  let ctx := s.decryptionContexts requestId
  if ctx.processed then .error .ReplayAttempt
  else
    let h := s.encryptedTotalConnections ctx.batchId
    let currentHash := HashV.keccak [h] thisAddr
    if currentHash ≠ ctx.stateHash then .error .StateMismatch
    else if ¬ proofOk then .error .InvalidProof
    else
      let total := cleartext % W32
      .ok
        ({ s with
            decryptionContexts := fun r =>
              if r = requestId then ⟨ctx.batchId, ctx.stateHash, true⟩
              else s.decryptionContexts r },
         [.DecryptionCompleted requestId ctx.batchId total])

/-- One external call to the contract, with all environment-chosen data
(caller, timestamp, oracle request id, decryption payload, proof verdict)
as fields. -/
inductive Input where
  | addProvider (sender provider : Nat)
  | removeProvider (sender provider : Nat)
  | setCooldownSeconds (sender newCooldown : Nat)
  | pause (sender : Nat)
  | unpause (sender : Nat)
  | openBatch (sender : Nat)
  | closeBatch (sender : Nat)
  | submit (sender now user encryptedCount : Nat)
  | requestDec (sender now batchId requestId : Nat)
  | callback (requestId cleartext : Nat) (proofOk : Bool)
deriving DecidableEq, Repr

/-- Dispatch an external call. -/
def applyInput (s : State) : Input → Except Err (State × List Event)
  | .addProvider sender provider => addProvider s sender provider
  | .removeProvider sender provider => removeProvider s sender provider
  | .setCooldownSeconds sender n => setCooldownSeconds s sender n
  | .pause sender => pause s sender
  | .unpause sender => unpause s sender
  | .openBatch sender => openBatch s sender
  | .closeBatch sender => closeBatch s sender
  | .submit sender now user c => submitEncryptedConnections s sender now user c
  | .requestDec sender now b r => requestTotalConnectionsDecryption s sender now b r
  | .callback r ct p => myCallback s r ct p

/-- Transaction semantics: a reverted call leaves the state unchanged. -/
def stepI (s : State) (i : Input) : State :=
  match applyInput s i with
  | .ok (s', _) => s'
  | .error _ => s

/-- Run a sequence of external calls. -/
def execTrace (s : State) (l : List Input) : State := l.foldl stepI s

/-- States reachable from some deployment by some call sequence. -/
def Reachable (s : State) : Prop := ∃ d l, execTrace (deploy d) l = s

/-- Whether a call succeeded. -/
def isOk {α : Type} : Except Err α → Bool
  | .ok _ => true
  | .error _ => false

/-- Whether an input mentions the request identifier `rid` (as the id a
decryption request is stored under, or as the id a callback is for). -/
def usesRid (rid : Nat) : Input → Bool
  | .requestDec _ _ _ r => decide (r = rid)
  | .callback r _ _ => decide (r = rid)
  | _ => false

/-- Whether an input is a decryption request stored under `rid`. -/
def isReqWithRid (rid : Nat) : Input → Bool
  | .requestDec _ _ _ r => decide (r = rid)
  | _ => false

/-- The request identifiers under which a trace's decryption requests are
stored, in order.  The external oracle issues correlation identifiers; a
trace whose `reqRids` has no duplicate is one in which the oracle never
reuses an identifier (each request gets its own independent context). -/
def reqRids : List Input → List Nat
  | [] => []
  | .requestDec _ _ _ r :: t => r :: reqRids t
  | _ :: t => reqRids t

/-- The FHE-handle discipline every reachable state obeys: handle
allocation started at 1 and every stored aggregate handle was allocated. -/
def AggBound (s : State) : Prop :=
  1 ≤ s.fheNext ∧ ∀ b, s.encryptedTotalConnections b < s.fheNext

/-- One `submitEncryptedConnections` call's arguments. -/
structure SubmitCall where
  sender : Nat
  time : Nat
  user : Nat
  handle : Nat
deriving DecidableEq, Repr

/-- Whether a sequence of submissions, run back to back, all succeed. -/
def submitsOk (s : State) : List SubmitCall → Bool
  | [] => true
  | c :: rest =>
      match submitEncryptedConnections s c.sender c.time c.user c.handle with
      | .error _ => false
      | .ok (s', _) => submitsOk s' rest

/-- The state after running a sequence of submissions back to back
(reverted calls leave the state unchanged). -/
def submitManyD (s : State) : List SubmitCall → State
  | [] => s
  | c :: rest => submitManyD (stepI s (.submit c.sender c.time c.user c.handle)) rest

/-- The sum of the cleartext values (as valued in state `s`) of a list of
submitted ciphertext handles. -/
def sumVals (s : State) (l : List SubmitCall) : Nat :=
  (l.map (fun c => s.fheVal c.handle)).sum

/-- The handle of `u`'s most recent submission in the list, if any
(later entries win). -/
def lastSubmitted (u : Nat) : List SubmitCall → Option Nat
  | [] => none
  | c :: rest =>
      match lastSubmitted u rest with
      | some h => some h
      | none => if c.user = u then some c.handle else none

/-- A concrete state used to instantiate the aggregate-correctness
theorem: two live external ciphertext handles 2 and 3 with cleartexts 5
and 7. -/
def sampleState : State :=
  { deploy 5 with
      fheNext := 4
      fheVal := fun x => if x = 2 then 5 else if x = 3 then 7 else 0 }

/-- Two concrete submissions (users 7 and 8, handles 2 and 3). -/
def sampleCalls : List SubmitCall := [⟨5, 100, 7, 2⟩, ⟨5, 200, 8, 3⟩]

theorem deploy_reachable (d : Nat) : Reachable (deploy d) := ⟨d, [], rfl⟩

/-! ### Success characterizations of the individual operations -/

theorem addProvider_ok {s s' : State} {ev : List Event} {sender provider : Nat}
    (h : addProvider s sender provider = .ok (s', ev)) :
    sender = s.owner ∧ provider ≠ 0 ∧
    s' = { s with isProvider := fun a => if a = provider then true else s.isProvider a } ∧
    ev = [Event.ProviderAdded provider] := by
  unfold addProvider at h
  split at h
  · exact Except.noConfusion h
  · rename_i hc
    split at h
    · exact Except.noConfusion h
    · rename_i hc2
      simp only [Except.ok.injEq, Prod.mk.injEq] at h
      exact ⟨not_not.mp hc, hc2, h.1.symm, h.2.symm⟩

theorem removeProvider_ok {s s' : State} {ev : List Event} {sender provider : Nat}
    (h : removeProvider s sender provider = .ok (s', ev)) :
    sender = s.owner ∧ s.isProvider provider = true ∧
    s' = { s with isProvider := fun a => if a = provider then false else s.isProvider a } ∧
    ev = [Event.ProviderRemoved provider] := by
  unfold removeProvider at h
  split at h
  · exact Except.noConfusion h
  · rename_i hc
    split at h
    · exact Except.noConfusion h
    · rename_i hc2
      simp only [Except.ok.injEq, Prod.mk.injEq] at h
      exact ⟨not_not.mp hc, by simpa using not_not.mp hc2, h.1.symm, h.2.symm⟩

theorem setCooldownSeconds_ok {s s' : State} {ev : List Event} {sender n : Nat}
    (h : setCooldownSeconds s sender n = .ok (s', ev)) :
    sender = s.owner ∧ n ≠ 0 ∧
    s' = { s with cooldownSeconds := n } ∧
    ev = [Event.CooldownSecondsUpdated s.cooldownSeconds n] := by
  unfold setCooldownSeconds at h
  split at h
  · exact Except.noConfusion h
  · rename_i hc
    split at h
    · exact Except.noConfusion h
    · rename_i hc2
      simp only [Except.ok.injEq, Prod.mk.injEq] at h
      exact ⟨not_not.mp hc, hc2, h.1.symm, h.2.symm⟩

theorem pause_ok {s s' : State} {ev : List Event} {sender : Nat}
    (h : pause s sender = .ok (s', ev)) :
    sender = s.owner ∧ s.paused = false ∧
    s' = { s with paused := true } ∧ ev = [Event.PausedEvt sender] := by
  unfold pause at h
  split at h
  · exact Except.noConfusion h
  · rename_i hc
    split at h
    · exact Except.noConfusion h
    · rename_i hc2
      simp only [Except.ok.injEq, Prod.mk.injEq] at h
      exact ⟨not_not.mp hc, by simpa using hc2, h.1.symm, h.2.symm⟩

theorem unpause_ok {s s' : State} {ev : List Event} {sender : Nat}
    (h : unpause s sender = .ok (s', ev)) :
    sender = s.owner ∧ s' = { s with paused := false } ∧
    ev = [Event.UnpausedEvt sender] := by
  unfold unpause at h
  split at h
  · exact Except.noConfusion h
  · rename_i hc
    simp only [Except.ok.injEq, Prod.mk.injEq] at h
    exact ⟨not_not.mp hc, h.1.symm, h.2.symm⟩

theorem openBatch_ok {s s' : State} {ev : List Event} {sender : Nat}
    (h : openBatch s sender = .ok (s', ev)) :
    s.isProvider sender = true ∧ s.paused = false ∧ s.batchOpen = false ∧
    s' = { s with
            currentBatchId := s.currentBatchId + 1
            batchOpen := true
            encryptedTotalConnections := fun b =>
              if b = s.currentBatchId + 1 then s.fheNext
              else s.encryptedTotalConnections b
            fheNext := s.fheNext + 1
            fheVal := fun x => if x = s.fheNext then 0 else s.fheVal x } ∧
    ev = [Event.BatchOpened (s.currentBatchId + 1)] := by
  unfold openBatch at h
  split at h
  · exact Except.noConfusion h
  · rename_i hc
    split at h
    · exact Except.noConfusion h
    · rename_i hc2
      split at h
      · exact Except.noConfusion h
      · rename_i hc3
        simp only [Except.ok.injEq, Prod.mk.injEq] at h
        exact ⟨by simpa using not_not.mp hc, by simpa using hc2,
          by simpa using hc3, h.1.symm, h.2.symm⟩

theorem closeBatch_ok {s s' : State} {ev : List Event} {sender : Nat}
    (h : closeBatch s sender = .ok (s', ev)) :
    s.isProvider sender = true ∧ s.paused = false ∧ s.batchOpen = true ∧
    s' = { s with batchOpen := false } ∧
    ev = [Event.BatchClosedEvt s.currentBatchId] := by
  unfold closeBatch at h
  split at h
  · exact Except.noConfusion h
  · rename_i hc
    split at h
    · exact Except.noConfusion h
    · rename_i hc2
      split at h
      · exact Except.noConfusion h
      · rename_i hc3
        simp only [Except.ok.injEq, Prod.mk.injEq] at h
        exact ⟨by simpa using not_not.mp hc, by simpa using hc2,
          by simpa using not_not.mp hc3, h.1.symm, h.2.symm⟩

theorem submit_ok {s s' : State} {ev : List Event} {sender now user c : Nat}
    (h : submitEncryptedConnections s sender now user c = .ok (s', ev)) :
    s.isProvider sender = true ∧ s.paused = false ∧
    s.lastSubmissionTime sender + s.cooldownSeconds ≤ now ∧
    s.batchOpen = true ∧ c ≠ 0 ∧
    s' = { s with
            lastSubmissionTime := fun a =>
              if a = sender then now else s.lastSubmissionTime a
            encryptedUserConnections := fun b' u =>
              if b' = s.currentBatchId ∧ u = user then c
              else s.encryptedUserConnections b' u
            encryptedTotalConnections := fun b' =>
              if b' = s.currentBatchId then s.fheNext
              else s.encryptedTotalConnections b'
            fheNext := s.fheNext + 1
            fheVal := fun x =>
              if x = s.fheNext then
                (s.fheVal (s.encryptedTotalConnections s.currentBatchId) +
                  s.fheVal c) % W32
              else s.fheVal x } ∧
    ev = [Event.ConnectionSubmitted user s.currentBatchId c] := by
  unfold submitEncryptedConnections at h
  split at h
  · exact Except.noConfusion h
  · rename_i hc
    split at h
    · exact Except.noConfusion h
    · rename_i hc2
      split at h
      · exact Except.noConfusion h
      · rename_i hc3
        split at h
        · exact Except.noConfusion h
        · rename_i hc4
          split at h
          · exact Except.noConfusion h
          · rename_i hc5
            simp only [Except.ok.injEq, Prod.mk.injEq] at h
            exact ⟨by simpa using not_not.mp hc, by simpa using hc2,
              Nat.le_of_not_lt hc3, by simpa using not_not.mp hc4, hc5,
              h.1.symm, h.2.symm⟩

theorem requestDec_ok {s s' : State} {ev : List Event} {sender now batchId requestId : Nat}
    (h : requestTotalConnectionsDecryption s sender now batchId requestId = .ok (s', ev)) :
    s.isProvider sender = true ∧ s.paused = false ∧
    s.lastDecryptionRequestTime sender + s.cooldownSeconds ≤ now ∧
    batchId ≠ 0 ∧ batchId ≤ s.currentBatchId ∧
    s.encryptedTotalConnections batchId ≠ 0 ∧
    s' = { s with
            lastDecryptionRequestTime := fun a =>
              if a = sender then now else s.lastDecryptionRequestTime a
            decryptionContexts := fun r =>
              if r = requestId then
                ⟨batchId,
                 HashV.keccak [s.encryptedTotalConnections batchId] thisAddr,
                 false⟩
              else s.decryptionContexts r } ∧
    ev = [Event.DecryptionRequested requestId batchId] := by
  unfold requestTotalConnectionsDecryption at h
  split at h
  · exact Except.noConfusion h
  · rename_i hc
    split at h
    · exact Except.noConfusion h
    · rename_i hc2
      split at h
      · exact Except.noConfusion h
      · rename_i hc3
        split at h
        · exact Except.noConfusion h
        · rename_i hc4
          split at h
          · exact Except.noConfusion h
          · rename_i hc5
            simp only [Except.ok.injEq, Prod.mk.injEq] at h
            push_neg at hc4
            exact ⟨by simpa using not_not.mp hc, by simpa using hc2,
              Nat.le_of_not_lt hc3, hc4.1, hc4.2, hc5, h.1.symm, h.2.symm⟩

theorem myCallback_ok {s s' : State} {ev : List Event} {requestId cleartext : Nat}
    {proofOk : Bool} (h : myCallback s requestId cleartext proofOk = .ok (s', ev)) :
    (s.decryptionContexts requestId).processed = false ∧
    HashV.keccak
        [s.encryptedTotalConnections (s.decryptionContexts requestId).batchId]
        thisAddr
      = (s.decryptionContexts requestId).stateHash ∧
    proofOk = true ∧
    s' = { s with
            decryptionContexts := fun r =>
              if r = requestId then
                ⟨(s.decryptionContexts requestId).batchId,
                 (s.decryptionContexts requestId).stateHash, true⟩
              else s.decryptionContexts r } ∧
    ev = [Event.DecryptionCompleted requestId
            (s.decryptionContexts requestId).batchId (cleartext % W32)] := by
  simp only [myCallback] at h
  by_cases hc : (s.decryptionContexts requestId).processed = true
  · rw [if_pos hc] at h
    exact Except.noConfusion h
  · rw [if_neg hc] at h
    by_cases hc2 :
        HashV.keccak
            [s.encryptedTotalConnections (s.decryptionContexts requestId).batchId]
            thisAddr
          ≠ (s.decryptionContexts requestId).stateHash
    · rw [if_pos hc2] at h
      exact Except.noConfusion h
    · rw [if_neg hc2] at h
      by_cases hc3 : proofOk = true
      · rw [if_neg (by simp [hc3])] at h
        simp only [Except.ok.injEq, Prod.mk.injEq] at h
        exact ⟨by simpa using hc, not_not.mp hc2, hc3, h.1.symm, h.2.symm⟩
      · rw [if_pos (by simpa using hc3)] at h
        exact Except.noConfusion h

/-! ### Frame facts about a single transaction -/

theorem stepI_frame (s : State) (i : Input) :
    (stepI s i).owner = s.owner ∧
    s.fheNext ≤ (stepI s i).fheNext ∧
    s.currentBatchId ≤ (stepI s i).currentBatchId ∧
    (∀ x, x < s.fheNext → (stepI s i).fheVal x = s.fheVal x) ∧
    (∀ rid, usesRid rid i = false →
      (stepI s i).decryptionContexts rid = s.decryptionContexts rid) ∧
    (∀ rid, isReqWithRid rid i = false →
      ((stepI s i).decryptionContexts rid).batchId
          = (s.decryptionContexts rid).batchId ∧
      ((stepI s i).decryptionContexts rid).stateHash
          = (s.decryptionContexts rid).stateHash ∧
      ((s.decryptionContexts rid).processed = true →
        ((stepI s i).decryptionContexts rid).processed = true)) ∧
    (∀ B, B ≤ s.currentBatchId →
      (stepI s i).encryptedTotalConnections B = s.encryptedTotalConnections B ∨
      s.fheNext ≤ (stepI s i).encryptedTotalConnections B) ∧
    ((∀ b, s.encryptedTotalConnections b < s.fheNext) →
      ∀ b, (stepI s i).encryptedTotalConnections b < (stepI s i).fheNext) := by
  unfold stepI
  cases hA : applyInput s i with
  | error e =>
      exact ⟨rfl, le_refl _, le_refl _, fun _ _ => rfl, fun _ _ => rfl,
        fun _ _ => ⟨rfl, rfl, fun h => h⟩, fun _ _ => Or.inl rfl, fun h => h⟩
  | ok p =>
      obtain ⟨s', ev⟩ := p
      cases i with
      | addProvider a prov =>
          simp only [applyInput] at hA
          obtain ⟨-, -, hs, -⟩ := addProvider_ok hA
          subst hs
          exact ⟨rfl, le_refl _, le_refl _, fun _ _ => rfl, fun _ _ => rfl,
            fun _ _ => ⟨rfl, rfl, fun h => h⟩, fun _ _ => Or.inl rfl, fun h => h⟩
      | removeProvider a prov =>
          simp only [applyInput] at hA
          obtain ⟨-, -, hs, -⟩ := removeProvider_ok hA
          subst hs
          exact ⟨rfl, le_refl _, le_refl _, fun _ _ => rfl, fun _ _ => rfl,
            fun _ _ => ⟨rfl, rfl, fun h => h⟩, fun _ _ => Or.inl rfl, fun h => h⟩
      | setCooldownSeconds a n =>
          simp only [applyInput] at hA
          obtain ⟨-, -, hs, -⟩ := setCooldownSeconds_ok hA
          subst hs
          exact ⟨rfl, le_refl _, le_refl _, fun _ _ => rfl, fun _ _ => rfl,
            fun _ _ => ⟨rfl, rfl, fun h => h⟩, fun _ _ => Or.inl rfl, fun h => h⟩
      | pause a =>
          simp only [applyInput] at hA
          obtain ⟨-, -, hs, -⟩ := pause_ok hA
          subst hs
          exact ⟨rfl, le_refl _, le_refl _, fun _ _ => rfl, fun _ _ => rfl,
            fun _ _ => ⟨rfl, rfl, fun h => h⟩, fun _ _ => Or.inl rfl, fun h => h⟩
      | unpause a =>
          simp only [applyInput] at hA
          obtain ⟨-, hs, -⟩ := unpause_ok hA
          subst hs
          exact ⟨rfl, le_refl _, le_refl _, fun _ _ => rfl, fun _ _ => rfl,
            fun _ _ => ⟨rfl, rfl, fun h => h⟩, fun _ _ => Or.inl rfl, fun h => h⟩
      | openBatch a =>
          simp only [applyInput] at hA
          obtain ⟨-, -, -, hs, -⟩ := openBatch_ok hA
          subst hs
          refine ⟨rfl, Nat.le_succ _, Nat.le_succ _, ?_, fun _ _ => rfl,
            fun _ _ => ⟨rfl, rfl, fun h => h⟩, ?_, ?_⟩
          · intro x hx
            exact if_neg (Nat.ne_of_lt hx)
          · intro B hB
            exact Or.inl (if_neg (by omega))
          · intro hb b
            by_cases hb' : b = s.currentBatchId + 1
            · simp only [hb', if_pos rfl]
              exact Nat.lt_succ_self _
            · simp only [if_neg hb']
              exact Nat.lt_succ_of_lt (hb b)
      | closeBatch a =>
          simp only [applyInput] at hA
          obtain ⟨-, -, -, hs, -⟩ := closeBatch_ok hA
          subst hs
          exact ⟨rfl, le_refl _, le_refl _, fun _ _ => rfl, fun _ _ => rfl,
            fun _ _ => ⟨rfl, rfl, fun h => h⟩, fun _ _ => Or.inl rfl, fun h => h⟩
      | submit a t u c =>
          simp only [applyInput] at hA
          obtain ⟨-, -, -, -, -, hs, -⟩ := submit_ok hA
          subst hs
          refine ⟨rfl, Nat.le_succ _, le_refl _, ?_, fun _ _ => rfl,
            fun _ _ => ⟨rfl, rfl, fun h => h⟩, ?_, ?_⟩
          · intro x hx
            exact if_neg (Nat.ne_of_lt hx)
          · intro B hB
            by_cases hB' : B = s.currentBatchId
            · simp only [hB', if_pos rfl]
              exact Or.inr (le_refl _)
            · exact Or.inl (if_neg hB')
          · intro hb b
            by_cases hb' : b = s.currentBatchId
            · simp only [hb', if_pos rfl]
              exact Nat.lt_succ_self _
            · simp only [if_neg hb']
              exact Nat.lt_succ_of_lt (hb b)
      | requestDec a t bid r =>
          simp only [applyInput] at hA
          obtain ⟨-, -, -, -, -, -, hs, -⟩ := requestDec_ok hA
          subst hs
          refine ⟨rfl, le_refl _, le_refl _, fun _ _ => rfl, ?_, ?_,
            fun _ _ => Or.inl rfl, fun h => h⟩
          · intro rid hrid
            simp only [usesRid] at hrid
            exact if_neg (Ne.symm (of_decide_eq_false hrid))
          · intro rid hrid
            simp only [isReqWithRid] at hrid
            have hne : rid ≠ r := Ne.symm (of_decide_eq_false hrid)
            refine ⟨by simp only [if_neg hne], by simp only [if_neg hne], fun h => ?_⟩
            simpa only [if_neg hne] using h
      | callback r ct p =>
          simp only [applyInput] at hA
          obtain ⟨-, -, -, hs, -⟩ := myCallback_ok hA
          subst hs
          refine ⟨rfl, le_refl _, le_refl _, fun _ _ => rfl, ?_, ?_,
            fun _ _ => Or.inl rfl, fun h => h⟩
          · intro rid hrid
            simp only [usesRid] at hrid
            exact if_neg (Ne.symm (of_decide_eq_false hrid))
          · intro rid _
            by_cases hr : rid = r
            · subst hr
              exact ⟨by simp, by simp, fun _ => by simp⟩
            · refine ⟨by simp only [if_neg hr], by simp only [if_neg hr], fun h => ?_⟩
              simpa only [if_neg hr] using h

theorem stepI_owner (s : State) (i : Input) : (stepI s i).owner = s.owner :=
  (stepI_frame s i).1

theorem stepI_fheNext_le (s : State) (i : Input) :
    s.fheNext ≤ (stepI s i).fheNext :=
  (stepI_frame s i).2.1

theorem stepI_batchId_le (s : State) (i : Input) :
    s.currentBatchId ≤ (stepI s i).currentBatchId :=
  (stepI_frame s i).2.2.1

theorem stepI_ctx_stable {s : State} {rid : Nat} (i : Input)
    (h : usesRid rid i = false) :
    (stepI s i).decryptionContexts rid = s.decryptionContexts rid :=
  (stepI_frame s i).2.2.2.2.1 rid h

/-- A callback for a request id that was never requested (default context:
batch 0, zero hash, unprocessed) always fails `StateMismatch`, because the
recomputed keccak hash is never the zero word. -/
theorem myCallback_default_err {s : State} {rid : Nat} (ct : Nat) (p : Bool)
    (hd : s.decryptionContexts rid = ⟨0, HashV.zero, false⟩) :
    myCallback s rid ct p = .error .StateMismatch := by
  simp [myCallback, hd]

/-! ### Trace machinery -/

theorem execTrace_preserve (P : State → Prop) (l : List Input) :
    ∀ s : State, P s →
      (∀ s' i, i ∈ l → P s' → P (stepI s' i)) → P (execTrace s l) := by
  induction l with
  | nil => exact fun s hP _ => hP
  | cons i t ih =>
      intro s hP hstep
      exact ih (stepI s i) (hstep s i (List.mem_cons_self i t) hP)
        (fun s' j hj => hstep s' j (List.mem_cons_of_mem i hj))

theorem stepI_aggBound {s : State} (i : Input) (h : AggBound s) :
    AggBound (stepI s i) :=
  ⟨le_trans h.1 (stepI_fheNext_le s i),
   (stepI_frame s i).2.2.2.2.2.2.2 h.2⟩

theorem reachable_aggBound {s : State} (h : Reachable s) : AggBound s := by
  obtain ⟨d, l, hl⟩ := h
  subst hl
  exact execTrace_preserve AggBound l (deploy d)
    ⟨le_refl 1, fun _ => Nat.zero_lt_one⟩
    (fun s' i _ hP => stepI_aggBound i hP)

/-- A transaction that is not a decryption request stored under `rid`
leaves a default context at `rid` default: in particular a callback for a
never-requested id reverts. -/
theorem stepI_ctx_default {s : State} {rid : Nat} (i : Input)
    (hd : s.decryptionContexts rid = ⟨0, HashV.zero, false⟩)
    (hi : isReqWithRid rid i = false) :
    (stepI s i).decryptionContexts rid = ⟨0, HashV.zero, false⟩ := by
  by_cases hu : usesRid rid i = false
  · rw [stepI_ctx_stable i hu]
    exact hd
  · have hu' : usesRid rid i = true := by
      cases hx : usesRid rid i
      · exact absurd hx hu
      · rfl
    cases i with
    | requestDec a t b r =>
        have h1 : r = rid := of_decide_eq_true (by simpa [usesRid] using hu')
        have h2 : r ≠ rid := of_decide_eq_false (by simpa [isReqWithRid] using hi)
        exact absurd h1 h2
    | callback r ct p =>
        have h1 : r = rid := of_decide_eq_true (by simpa [usesRid] using hu')
        subst h1
        have hcb := @myCallback_default_err s r ct p hd
        simp [stepI, applyInput, hcb, hd]
    | addProvider a b => simp [usesRid] at hu'
    | removeProvider a b => simp [usesRid] at hu'
    | setCooldownSeconds a b => simp [usesRid] at hu'
    | pause a => simp [usesRid] at hu'
    | unpause a => simp [usesRid] at hu'
    | openBatch a => simp [usesRid] at hu'
    | closeBatch a => simp [usesRid] at hu'
    | submit a b c d => simp [usesRid] at hu'

theorem reqRids_append (l1 l2 : List Input) :
    reqRids (l1 ++ l2) = reqRids l1 ++ reqRids l2 := by
  induction l1 with
  | nil => rfl
  | cons i t ih => cases i <;> simp [reqRids, ih]

theorem mem_reqRids {rid : Nat} {i : Input} {l : List Input}
    (hi : isReqWithRid rid i = true) (hl : i ∈ l) : rid ∈ reqRids l := by
  induction l with
  | nil => cases hl
  | cons j t ih =>
      rcases List.mem_cons.mp hl with h | h
      · subst h
        cases i with
        | requestDec a t' b r =>
            have hr : r = rid := of_decide_eq_true (by simpa [isReqWithRid] using hi)
            subst hr
            exact List.mem_cons_self _ _
        | addProvider a b => simp [isReqWithRid] at hi
        | removeProvider a b => simp [isReqWithRid] at hi
        | setCooldownSeconds a b => simp [isReqWithRid] at hi
        | pause a => simp [isReqWithRid] at hi
        | unpause a => simp [isReqWithRid] at hi
        | openBatch a => simp [isReqWithRid] at hi
        | closeBatch a => simp [isReqWithRid] at hi
        | submit a b c d => simp [isReqWithRid] at hi
        | callback a b c => simp [isReqWithRid] at hi
      · have hmem := ih h
        cases j <;> simp only [reqRids] <;>
          first
          | exact hmem
          | exact List.mem_cons_of_mem _ hmem

/-! ### The claims -/

/-- C2: once a request's context has `processed = true`, any further
callback for that request id — whatever the cleartext payload is and
whether or not the proof would verify — fails with `ReplayAttempt` and
reverts, so `processed` and all other state are unchanged and no second
`DecryptionCompleted` event is emitted; the replay check fires before the
integrity-hash check, the proof check and the decode step (the error is
`ReplayAttempt` for every payload, every proof verdict, and every
aggregate-ciphertext configuration). -/
theorem claim_C2 (s : State) (rid : Nat)
    (h : (s.decryptionContexts rid).processed = true) :
    ∀ (ct : Nat) (p : Bool),
      myCallback s rid ct p = .error .ReplayAttempt ∧
      stepI s (.callback rid ct p) = s := by
  intro ct p
  have h1 : myCallback s rid ct p = .error .ReplayAttempt := by
    simp [myCallback, h]
  exact ⟨h1, by simp [stepI, applyInput, h1]⟩

theorem claim_C2_witness :
    myCallback
        (execTrace (deploy 5) [.openBatch 5, .requestDec 5 100 1 42, .callback 42 8 true])
        42 8 true
      = .error .ReplayAttempt ∧
    stepI
        (execTrace (deploy 5) [.openBatch 5, .requestDec 5 100 1 42, .callback 42 8 true])
        (.callback 42 8 true)
      = execTrace (deploy 5) [.openBatch 5, .requestDec 5 100 1 42, .callback 42 8 true] :=
  claim_C2
    (execTrace (deploy 5) [.openBatch 5, .requestDec 5 100 1 42, .callback 42 8 true])
    42 (by decide) 8 true

/-- C10: a callback for a request identifier that was never requested
(its context is the default value: batch 0, zero state hash, not
processed) never completes: for every cleartext and proof it fails with
`StateMismatch` — the recomputed keccak hash over the exported ciphertext
of batch 0 is never the zero word — and reverts, so no state change and
no event. -/
theorem claim_C10 (s : State) (rid : Nat)
    (hd : s.decryptionContexts rid = ⟨0, HashV.zero, false⟩) :
    ∀ (ct : Nat) (p : Bool),
      myCallback s rid ct p = .error .StateMismatch ∧
      stepI s (.callback rid ct p) = s := by
  intro ct p
  have h1 := @myCallback_default_err s rid ct p hd
  exact ⟨h1, by simp [stepI, applyInput, h1]⟩

theorem claim_C10_witness :
    myCallback (deploy 5) 7 123 true = .error .StateMismatch ∧
    stepI (deploy 5) (.callback 7 123 true) = deploy 5 :=
  claim_C10 (deploy 5) 7 (by decide) 123 true

/-- C8: for a provider calling while not paused and past its
decryption-request cooldown, `requestTotalConnectionsDecryption(batchId)`
fails `InvalidArgument` when `batchId` is 0 or exceeds `currentBatchId`,
fails `NotInitialized` when the batch's aggregate is not an initialized
ciphertext, and otherwise succeeds, storing (keyed by the oracle-returned
request identifier) a context with that `batchId`, the keccak integrity
hash over the exported aggregate ciphertext, `processed = false`, and
resetting the caller's decryption-request cooldown timestamp to `now`. -/
theorem claim_C8 (s : State) (sender now batchId rid : Nat)
    (hprov : s.isProvider sender = true) (hp : s.paused = false)
    (hcd : s.lastDecryptionRequestTime sender + s.cooldownSeconds ≤ now) :
    (batchId = 0 ∨ s.currentBatchId < batchId →
      requestTotalConnectionsDecryption s sender now batchId rid =
        .error .InvalidArgument) ∧
    (batchId ≠ 0 → batchId ≤ s.currentBatchId →
      s.encryptedTotalConnections batchId = 0 →
      requestTotalConnectionsDecryption s sender now batchId rid =
        .error .NotInitialized) ∧
    (batchId ≠ 0 → batchId ≤ s.currentBatchId →
      s.encryptedTotalConnections batchId ≠ 0 →
      requestTotalConnectionsDecryption s sender now batchId rid =
        .ok
          ({ s with
              lastDecryptionRequestTime := fun a =>
                if a = sender then now else s.lastDecryptionRequestTime a
              decryptionContexts := fun r =>
                if r = rid then
                  ⟨batchId,
                   HashV.keccak [s.encryptedTotalConnections batchId] thisAddr,
                   false⟩
                else s.decryptionContexts r },
           [Event.DecryptionRequested rid batchId])) := by
  refine ⟨?_, ?_, ?_⟩
  · intro hr
    unfold requestTotalConnectionsDecryption
    rw [if_neg (by simp [hprov]), if_neg (by simp [hp]),
      if_neg (Nat.not_lt.mpr hcd), if_pos hr]
  · intro h1 h2 h3
    unfold requestTotalConnectionsDecryption
    rw [if_neg (by simp [hprov]), if_neg (by simp [hp]),
      if_neg (Nat.not_lt.mpr hcd), if_neg (not_or.mpr ⟨h1, Nat.not_lt.mpr h2⟩),
      if_pos h3]
  · intro h1 h2 h3
    unfold requestTotalConnectionsDecryption
    rw [if_neg (by simp [hprov]), if_neg (by simp [hp]),
      if_neg (Nat.not_lt.mpr hcd), if_neg (not_or.mpr ⟨h1, Nat.not_lt.mpr h2⟩),
      if_neg h3]

theorem claim_C8_witness :
    (1 = 0 ∨ (stepI (deploy 5) (.openBatch 5)).currentBatchId < 1 →
      requestTotalConnectionsDecryption (stepI (deploy 5) (.openBatch 5)) 5 100 1 42 =
        .error .InvalidArgument) ∧
    (1 ≠ 0 → 1 ≤ (stepI (deploy 5) (.openBatch 5)).currentBatchId →
      (stepI (deploy 5) (.openBatch 5)).encryptedTotalConnections 1 = 0 →
      requestTotalConnectionsDecryption (stepI (deploy 5) (.openBatch 5)) 5 100 1 42 =
        .error .NotInitialized) ∧
    (1 ≠ 0 → 1 ≤ (stepI (deploy 5) (.openBatch 5)).currentBatchId →
      (stepI (deploy 5) (.openBatch 5)).encryptedTotalConnections 1 ≠ 0 →
      requestTotalConnectionsDecryption (stepI (deploy 5) (.openBatch 5)) 5 100 1 42 =
        .ok
          ({ stepI (deploy 5) (.openBatch 5) with
              lastDecryptionRequestTime := fun a =>
                if a = 5 then 100
                else (stepI (deploy 5) (.openBatch 5)).lastDecryptionRequestTime a
              decryptionContexts := fun r =>
                if r = 42 then
                  ⟨1,
                   HashV.keccak
                     [(stepI (deploy 5) (.openBatch 5)).encryptedTotalConnections 1]
                     thisAddr,
                   false⟩
                else (stepI (deploy 5) (.openBatch 5)).decryptionContexts r },
           [Event.DecryptionRequested 42 1])) :=
  claim_C8 (stepI (deploy 5) (.openBatch 5)) 5 100 1 42 (by decide) (by decide)
    (by decide)

/-- C9: cooldown throttling, per caller and per operation class
(submission and decryption request independently): a call at time `now`
with `now < lastActionTime + cooldownSeconds` fails `CooldownActive` with
no state change; at or after that time the cooldown check passes (the call
never fails `CooldownActive`); and a successful call resets exactly its
own class's timer for the caller to `now`, leaving the other class's
timers untouched. -/
theorem claim_C9 (s : State) (sender now : Nat)
    (hprov : s.isProvider sender = true) (hp : s.paused = false) :
    (now < s.lastSubmissionTime sender + s.cooldownSeconds →
      ∀ user c,
        submitEncryptedConnections s sender now user c = .error .CooldownActive ∧
        stepI s (.submit sender now user c) = s) ∧
    (s.lastSubmissionTime sender + s.cooldownSeconds ≤ now →
      ∀ user c,
        submitEncryptedConnections s sender now user c ≠ .error .CooldownActive) ∧
    (∀ user c s' ev,
      submitEncryptedConnections s sender now user c = .ok (s', ev) →
      s'.lastSubmissionTime sender = now ∧
      s'.lastDecryptionRequestTime = s.lastDecryptionRequestTime) ∧
    (now < s.lastDecryptionRequestTime sender + s.cooldownSeconds →
      ∀ b rid,
        requestTotalConnectionsDecryption s sender now b rid = .error .CooldownActive ∧
        stepI s (.requestDec sender now b rid) = s) ∧
    (s.lastDecryptionRequestTime sender + s.cooldownSeconds ≤ now →
      ∀ b rid,
        requestTotalConnectionsDecryption s sender now b rid ≠ .error .CooldownActive) ∧
    (∀ b rid s' ev,
      requestTotalConnectionsDecryption s sender now b rid = .ok (s', ev) →
      s'.lastDecryptionRequestTime sender = now ∧
      s'.lastSubmissionTime = s.lastSubmissionTime) := by
  refine ⟨?_, ?_, ?_, ?_, ?_, ?_⟩
  · intro hlt user c
    have h1 : submitEncryptedConnections s sender now user c = .error .CooldownActive := by
      unfold submitEncryptedConnections
      rw [if_neg (by simp [hprov]), if_neg (by simp [hp]), if_pos hlt]
    exact ⟨h1, by simp [stepI, applyInput, h1]⟩
  · intro hge user c
    unfold submitEncryptedConnections
    rw [if_neg (by simp [hprov]), if_neg (by simp [hp]),
      if_neg (Nat.not_lt.mpr hge)]
    split
    · simp
    · split
      · simp
      · simp
  · intro user c s' ev hok
    obtain ⟨-, -, -, -, -, hs, -⟩ := submit_ok hok
    subst hs
    exact ⟨by simp, rfl⟩
  · intro hlt b rid
    have h1 : requestTotalConnectionsDecryption s sender now b rid =
        .error .CooldownActive := by
      unfold requestTotalConnectionsDecryption
      rw [if_neg (by simp [hprov]), if_neg (by simp [hp]), if_pos hlt]
    exact ⟨h1, by simp [stepI, applyInput, h1]⟩
  · intro hge b rid
    unfold requestTotalConnectionsDecryption
    rw [if_neg (by simp [hprov]), if_neg (by simp [hp]),
      if_neg (Nat.not_lt.mpr hge)]
    split
    · simp
    · split
      · simp
      · simp
  · intro b rid s' ev hok
    obtain ⟨-, -, -, -, -, -, hs, -⟩ := requestDec_ok hok
    subst hs
    exact ⟨by simp, rfl⟩

theorem claim_C9_witness :
    submitEncryptedConnections (deploy 5) 5 0 7 1 = .error .CooldownActive ∧
    stepI (deploy 5) (.submit 5 0 7 1) = deploy 5 :=
  (claim_C9 (deploy 5) 5 0 (by decide) (by decide)).1 (by decide) 7 1

/-- C6: batch lifecycle alternation, for a provider calling while not
paused: `openBatch` fails `InvalidArgument` and reverts when a batch is
already open, and otherwise increments `currentBatchId`, opens the batch,
and initializes the new batch's aggregate to a freshly allocated
ciphertext whose cleartext is 0; `closeBatch` fails `InvalidArgument` and
reverts when no batch is open, and otherwise only clears the open flag,
leaving all accumulated data (and every other field) unchanged. -/
theorem claim_C6 (s : State) (sender : Nat)
    (hprov : s.isProvider sender = true) (hp : s.paused = false) :
    (s.batchOpen = true →
      openBatch s sender = .error .InvalidArgument ∧
      stepI s (.openBatch sender) = s) ∧
    (s.batchOpen = false →
      openBatch s sender =
        .ok
          ({ s with
              currentBatchId := s.currentBatchId + 1
              batchOpen := true
              encryptedTotalConnections := fun b =>
                if b = s.currentBatchId + 1 then s.fheNext
                else s.encryptedTotalConnections b
              fheNext := s.fheNext + 1
              fheVal := fun x => if x = s.fheNext then 0 else s.fheVal x },
           [Event.BatchOpened (s.currentBatchId + 1)]) ∧
      (stepI s (.openBatch sender)).fheVal
          ((stepI s (.openBatch sender)).encryptedTotalConnections
            (s.currentBatchId + 1)) = 0) ∧
    (s.batchOpen = false →
      closeBatch s sender = .error .InvalidArgument ∧
      stepI s (.closeBatch sender) = s) ∧
    (s.batchOpen = true →
      closeBatch s sender =
        .ok ({ s with batchOpen := false },
          [Event.BatchClosedEvt s.currentBatchId])) := by
  refine ⟨?_, ?_, ?_, ?_⟩
  · intro hb
    have h1 : openBatch s sender = .error .InvalidArgument := by
      unfold openBatch
      rw [if_neg (by simp [hprov]), if_neg (by simp [hp]), if_pos hb]
    exact ⟨h1, by simp [stepI, applyInput, h1]⟩
  · intro hb
    have h1 : openBatch s sender =
        .ok
          ({ s with
              currentBatchId := s.currentBatchId + 1
              batchOpen := true
              encryptedTotalConnections := fun b =>
                if b = s.currentBatchId + 1 then s.fheNext
                else s.encryptedTotalConnections b
              fheNext := s.fheNext + 1
              fheVal := fun x => if x = s.fheNext then 0 else s.fheVal x },
           [Event.BatchOpened (s.currentBatchId + 1)]) := by
      unfold openBatch
      rw [if_neg (by simp [hprov]), if_neg (by simp [hp]), if_neg (by simp [hb])]
    refine ⟨h1, ?_⟩
    simp [stepI, applyInput, h1]
  · intro hb
    have h1 : closeBatch s sender = .error .InvalidArgument := by
      unfold closeBatch
      rw [if_neg (by simp [hprov]), if_neg (by simp [hp]), if_pos (by simp [hb])]
    exact ⟨h1, by simp [stepI, applyInput, h1]⟩
  · intro hb
    unfold closeBatch
    rw [if_neg (by simp [hprov]), if_neg (by simp [hp]), if_neg (by simp [hb])]

theorem claim_C6_witness :
    openBatch (deploy 5) 5 =
      .ok
        ({ deploy 5 with
            currentBatchId := (deploy 5).currentBatchId + 1
            batchOpen := true
            encryptedTotalConnections := fun b =>
              if b = (deploy 5).currentBatchId + 1 then (deploy 5).fheNext
              else (deploy 5).encryptedTotalConnections b
            fheNext := (deploy 5).fheNext + 1
            fheVal := fun x => if x = (deploy 5).fheNext then 0 else (deploy 5).fheVal x },
         [Event.BatchOpened ((deploy 5).currentBatchId + 1)]) ∧
    (stepI (deploy 5) (.openBatch 5)).fheVal
        ((stepI (deploy 5) (.openBatch 5)).encryptedTotalConnections
          ((deploy 5).currentBatchId + 1)) = 0 :=
  (claim_C6 (deploy 5) 5 (by decide) (by decide)).2.1 (by decide)

/-- C4 (amended): while the pause flag is set, the batch and decryption
operations guarded by `whenNotPaused` — `openBatch`, `closeBatch`,
`submitEncryptedConnections`, `requestTotalConnectionsDecryption`, and
`pause` itself — fail with `Paused` (for a caller passing the role check
that runs first); the admin operations `addProvider`, `removeProvider`,
`setCooldownSeconds`, `unpause`, and the callback `myCallback` are not
gated by the pause flag. -/
theorem claim_C4_amended (s : State) (sender : Nat) (hp : s.paused = true) :
    (s.isProvider sender = true →
      openBatch s sender = .error .Paused ∧
      closeBatch s sender = .error .Paused ∧
      (∀ now user c,
        submitEncryptedConnections s sender now user c = .error .Paused) ∧
      (∀ now b rid,
        requestTotalConnectionsDecryption s sender now b rid = .error .Paused)) ∧
    (sender = s.owner → pause s sender = .error .Paused) := by
  constructor
  · intro hprov
    refine ⟨?_, ?_, ?_, ?_⟩
    · unfold openBatch
      rw [if_neg (by simp [hprov]), if_pos hp]
    · unfold closeBatch
      rw [if_neg (by simp [hprov]), if_pos hp]
    · intro now user c
      unfold submitEncryptedConnections
      rw [if_neg (by simp [hprov]), if_pos hp]
    · intro now b rid
      unfold requestTotalConnectionsDecryption
      rw [if_neg (by simp [hprov]), if_pos hp]
  · intro hown
    unfold pause
    rw [if_neg (by simp [hown]), if_pos hp]

theorem claim_C4_amended_witness :
    openBatch (stepI (deploy 5) (.pause 5)) 5 = .error .Paused ∧
    closeBatch (stepI (deploy 5) (.pause 5)) 5 = .error .Paused ∧
    (∀ now user c,
      submitEncryptedConnections (stepI (deploy 5) (.pause 5)) 5 now user c =
        .error .Paused) ∧
    (∀ now b rid,
      requestTotalConnectionsDecryption (stepI (deploy 5) (.pause 5)) 5 now b rid =
        .error .Paused) :=
  (claim_C4_amended (stepI (deploy 5) (.pause 5)) 5 (by decide)).1 (by decide)

/-- C4 counterexample: in the paused state, `addProvider` — a
state-mutating operation — succeeds and mutates the provider set (the
source puts no `whenNotPaused` modifier on it), refuting the claim that
every state-mutating operation fails with `Paused` while paused. -/
theorem claim_C4_cex :
    (stepI (deploy 5) (.pause 5)).paused = true ∧
    (stepI (deploy 5) (.pause 5)).isProvider 7 = false ∧
    isOk (applyInput (stepI (deploy 5) (.pause 5)) (.addProvider 5 7)) = true ∧
    (stepI (stepI (deploy 5) (.pause 5)) (.addProvider 5 7)).isProvider 7 = true := by
  decide

/-- C5 (amended): in every state reachable from construction the owner
identity is unchanged from the one set at construction, and the provider
set contains the owner at construction; however the owner can later be
removed from the provider set (see the counterexample), so containment is
not an invariant. -/
theorem claim_C5_amended (d : Nat) (l : List Input) :
    (execTrace (deploy d) l).owner = d ∧ (deploy d).isProvider d = true := by
  constructor
  · exact execTrace_preserve (fun s => s.owner = d) l (deploy d) rfl
      (fun s' i _ hP => by
        show (stepI s' i).owner = d
        rw [stepI_owner]
        exact hP)
  · simp [deploy]

/-- C5 counterexample: `removeProvider(owner)` called by the owner
succeeds, reaching a state whose provider set does not contain the owner,
refuting the claim that no operation can remove the owner from the
provider set. -/
theorem claim_C5_cex :
    (execTrace (deploy 5) [.removeProvider 5 5]).isProvider
      ((execTrace (deploy 5) [.removeProvider 5 5]).owner) = false := by
  decide

theorem W32_pos : 0 < W32 := by norm_num [W32]

theorem sumVals_nil (s : State) : sumVals s [] = 0 := rfl

theorem sumVals_cons (s : State) (c : SubmitCall) (l : List SubmitCall) :
    sumVals s (c :: l) = s.fheVal c.handle + sumVals s l := by
  simp [sumVals]

theorem sumVals_congr {s1 s2 : State} :
    ∀ l : List SubmitCall,
      (∀ c ∈ l, s1.fheVal c.handle = s2.fheVal c.handle) →
      sumVals s1 l = sumVals s2 l
  | [], _ => rfl
  | c :: t, h => by
      rw [sumVals_cons, sumVals_cons, h c (List.mem_cons_self c t),
        sumVals_congr t (fun c' hc' => h c' (List.mem_cons_of_mem _ hc'))]

/-- Running a sequence of successful submissions while a batch is open:
the batch stays open with the same id, handle allocation only grows,
previously live handles keep their cleartexts, the aggregate's cleartext
grows by the (wrapped) sum of the submitted contributions, and each
user's stored contribution is their most recent submitted handle. -/
theorem submitMany_spec (l : List SubmitCall) :
    ∀ (N : Nat) (s : State),
      submitsOk s l = true →
      s.batchOpen = true →
      N ≤ s.fheNext →
      s.encryptedTotalConnections s.currentBatchId < s.fheNext →
      s.fheVal (s.encryptedTotalConnections s.currentBatchId) < W32 →
      (∀ c ∈ l, c.handle < N) →
      (submitManyD s l).batchOpen = true ∧
      (submitManyD s l).currentBatchId = s.currentBatchId ∧
      N ≤ (submitManyD s l).fheNext ∧
      (submitManyD s l).encryptedTotalConnections (submitManyD s l).currentBatchId <
        (submitManyD s l).fheNext ∧
      (∀ x, x < N → (submitManyD s l).fheVal x = s.fheVal x) ∧
      (submitManyD s l).fheVal
          ((submitManyD s l).encryptedTotalConnections s.currentBatchId) =
        (s.fheVal (s.encryptedTotalConnections s.currentBatchId) + sumVals s l) % W32 ∧
      (submitManyD s l).fheVal
          ((submitManyD s l).encryptedTotalConnections s.currentBatchId) < W32 ∧
      (∀ u, (submitManyD s l).encryptedUserConnections s.currentBatchId u =
        (lastSubmitted u l).getD (s.encryptedUserConnections s.currentBatchId u)) := by
  induction l with
  | nil =>
      intro N s hok hopen hN hagg hw hh
      refine ⟨hopen, rfl, hN, hagg, fun x _ => rfl, ?_, hw, fun u => rfl⟩
      rw [sumVals_nil, Nat.add_zero, Nat.mod_eq_of_lt hw]
      rfl
  | cons c rest ih =>
      intro N s hok hopen hN hagg hw hh
      cases hs : submitEncryptedConnections s c.sender c.time c.user c.handle with
      | error e =>
          rw [submitsOk, hs] at hok
          exact absurd hok (by simp)
      | ok p =>
          obtain ⟨s1, ev⟩ := p
          rw [submitsOk, hs] at hok
          have hstep : stepI s (.submit c.sender c.time c.user c.handle) = s1 := by
            simp [stepI, applyInput, hs]
          have hDs : submitManyD s (c :: rest) = submitManyD s1 rest := by
            rw [submitManyD, hstep]
          obtain ⟨-, -, -, -, -, hseq, -⟩ := submit_ok hs
          have e1 : s1.batchOpen = s.batchOpen := by rw [hseq]
          have e2 : s1.currentBatchId = s.currentBatchId := by rw [hseq]
          have e3 : s1.fheNext = s.fheNext + 1 := by rw [hseq]
          have e4 : s1.encryptedTotalConnections s.currentBatchId = s.fheNext := by
            rw [hseq]
            exact if_pos rfl
          have e5 : s1.fheVal s.fheNext =
              (s.fheVal (s.encryptedTotalConnections s.currentBatchId) +
                s.fheVal c.handle) % W32 := by
            rw [hseq]
            exact if_pos rfl
          have e6 : ∀ x, x ≠ s.fheNext → s1.fheVal x = s.fheVal x := by
            intro x hx
            rw [hseq]
            exact if_neg hx
          have e8 : ∀ u, s1.encryptedUserConnections s.currentBatchId u =
              if u = c.user then c.handle
              else s.encryptedUserConnections s.currentBatchId u := by
            intro u
            rw [hseq]
            by_cases hu : u = c.user
            · simp [hu]
            · simp [hu]
          have hopen1 : s1.batchOpen = true := by rw [e1]; exact hopen
          have hN1 : N ≤ s1.fheNext := by
            rw [e3]
            exact le_trans hN (Nat.le_succ _)
          have hagg1 : s1.encryptedTotalConnections s1.currentBatchId < s1.fheNext := by
            rw [e2, e4, e3]
            exact Nat.lt_succ_self _
          have hw1 : s1.fheVal (s1.encryptedTotalConnections s1.currentBatchId) < W32 := by
            rw [e2, e4, e5]
            exact Nat.mod_lt _ W32_pos
          have hh1 : ∀ c' ∈ rest, c'.handle < N :=
            fun c' hc' => hh c' (List.mem_cons_of_mem _ hc')
          obtain ⟨ih1, ih2, ih3, ih4, ih5, ih6, ih7, ih8⟩ :=
            ih N s1 hok hopen1 hN1 hagg1 hw1 hh1
          rw [hDs]
          refine ⟨ih1, ih2.trans e2, ih3, ih4, ?_, ?_, ?_, ?_⟩
          · intro x hx
            exact (ih5 x hx).trans
              (e6 x (Nat.ne_of_lt (lt_of_lt_of_le hx hN)))
          · rw [e2, e4, e5] at ih6
            have hsum : sumVals s1 rest = sumVals s rest :=
              sumVals_congr rest (fun c' hc' =>
                e6 c'.handle (Nat.ne_of_lt (lt_of_lt_of_le (hh1 c' hc') hN)))
            rw [hsum, Nat.mod_add_mod] at ih6
            rw [sumVals_cons, ← Nat.add_assoc]
            exact ih6
          · rw [e2] at ih7
            exact ih7
          · intro u
            have ihu := ih8 u
            rw [e2, e8 u] at ihu
            cases hl : lastSubmitted u rest with
            | some hdl =>
                rw [hl] at ihu
                simp only [Option.getD_some] at ihu
                simp only [lastSubmitted, hl, Option.getD_some]
                exact ihu
            | none =>
                rw [hl] at ihu
                simp only [Option.getD_none] at ihu
                by_cases hu : u = c.user
                · simp only [lastSubmitted, hl, if_pos hu.symm, Option.getD_some]
                  rw [ihu, if_pos hu]
                · have hcu : ¬ c.user = u := fun hcu => hu hcu.symm
                  simp only [lastSubmitted, hl, if_neg hcu, Option.getD_none]
                  rw [ihu, if_neg hu]

/-- C3: for every sequence of successful `submitEncryptedConnections`
calls to the batch just opened, carrying live ciphertext handles of
cleartext values `v_1..v_n`, the batch aggregate's cleartext equals the
homomorphic (mod `2 ^ 32`) sum of all n contributions — exactly Σv_i when
no wrap occurs — counting repeated submissions by the same user each
time, while the per-(batch,user) stored contribution is exactly that
user's most recent submitted handle.  (A decryption of B requested after
closing B and before further submissions snapshots precisely this
aggregate ciphertext, so a faithful oracle reveals this value.) -/
theorem claim_C3 (s0 : State) (sender : Nat) (l : List SubmitCall)
    (hopen : isOk (applyInput s0 (.openBatch sender)) = true)
    (hh : ∀ c ∈ l, c.handle < (stepI s0 (.openBatch sender)).fheNext)
    (hok : submitsOk (stepI s0 (.openBatch sender)) l = true) :
    (submitManyD (stepI s0 (.openBatch sender)) l).fheVal
        ((submitManyD (stepI s0 (.openBatch sender)) l).encryptedTotalConnections
          (stepI s0 (.openBatch sender)).currentBatchId) =
      sumVals (stepI s0 (.openBatch sender)) l % W32 ∧
    (sumVals (stepI s0 (.openBatch sender)) l < W32 →
      (submitManyD (stepI s0 (.openBatch sender)) l).fheVal
          ((submitManyD (stepI s0 (.openBatch sender)) l).encryptedTotalConnections
            (stepI s0 (.openBatch sender)).currentBatchId) =
        sumVals (stepI s0 (.openBatch sender)) l) ∧
    (∀ u hdl, lastSubmitted u l = some hdl →
      (submitManyD (stepI s0 (.openBatch sender)) l).encryptedUserConnections
          (stepI s0 (.openBatch sender)).currentBatchId u = hdl) := by
  cases hA : applyInput s0 (.openBatch sender) with
  | error e => rw [hA] at hopen; exact absurd hopen (by simp [isOk])
  | ok p =>
      obtain ⟨s1, ev⟩ := p
      have hstep : stepI s0 (.openBatch sender) = s1 := by
        simp [stepI, hA]
      simp only [applyInput] at hA
      obtain ⟨-, -, -, hseq, -⟩ := openBatch_ok hA
      have e2 : s1.currentBatchId = s0.currentBatchId + 1 := by rw [hseq]
      have e3 : s1.fheNext = s0.fheNext + 1 := by rw [hseq]
      have e4 : s1.encryptedTotalConnections s1.currentBatchId = s0.fheNext := by
        rw [hseq]
        exact if_pos rfl
      have e5 : s1.fheVal s0.fheNext = 0 := by
        rw [hseq]
        exact if_pos rfl
      have hagg1 : s1.encryptedTotalConnections s1.currentBatchId < s1.fheNext := by
        rw [e4, e3]
        exact Nat.lt_succ_self _
      have hw1 : s1.fheVal (s1.encryptedTotalConnections s1.currentBatchId) < W32 := by
        rw [e4, e5]
        exact W32_pos
      have hopen1 : s1.batchOpen = true := by rw [hseq]
      rw [hstep] at hh hok ⊢
      obtain ⟨-, -, -, -, -, ih6, -, ih8⟩ :=
        submitMany_spec l s1.fheNext s1 hok hopen1 (le_refl _) hagg1 hw1 hh
      rw [e4, e5, Nat.zero_add] at ih6
      refine ⟨ih6, ?_, ?_⟩
      · intro hlt
        rw [ih6]
        exact Nat.mod_eq_of_lt hlt
      · intro u hdl hl
        have hu := ih8 u
        rw [hl] at hu
        simpa using hu

theorem claim_C3_witness :
    (submitManyD (stepI sampleState (.openBatch 5)) sampleCalls).fheVal
        ((submitManyD (stepI sampleState (.openBatch 5)) sampleCalls).encryptedTotalConnections
          (stepI sampleState (.openBatch 5)).currentBatchId) =
      sumVals (stepI sampleState (.openBatch 5)) sampleCalls % W32 ∧
    (sumVals (stepI sampleState (.openBatch 5)) sampleCalls < W32 →
      (submitManyD (stepI sampleState (.openBatch 5)) sampleCalls).fheVal
          ((submitManyD (stepI sampleState (.openBatch 5)) sampleCalls).encryptedTotalConnections
            (stepI sampleState (.openBatch 5)).currentBatchId) =
        sumVals (stepI sampleState (.openBatch 5)) sampleCalls) ∧
    (∀ u hdl, lastSubmitted u sampleCalls = some hdl →
      (submitManyD (stepI sampleState (.openBatch 5)) sampleCalls).encryptedUserConnections
          (stepI sampleState (.openBatch 5)).currentBatchId u = hdl) :=
  claim_C3 sampleState 5 sampleCalls (by decide) (by decide) (by decide)

theorem execTrace_ctx_default {rid : Nat} {l : List Input} {s : State}
    (hd : s.decryptionContexts rid = ⟨0, HashV.zero, false⟩)
    (hnot : rid ∉ reqRids l) :
    (execTrace s l).decryptionContexts rid = ⟨0, HashV.zero, false⟩ :=
  execTrace_preserve
    (fun s' => s'.decryptionContexts rid = ⟨0, HashV.zero, false⟩) l s hd
    (fun s' i hi hP => stepI_ctx_default i hP (by
      cases hq : isReqWithRid rid i
      · rfl
      · exact absurd (mem_reqRids hq hi) hnot))

theorem execTrace_ctx_fields {rid : Nat} {l : List Input} (s : State)
    (hnot : rid ∉ reqRids l) :
    ((execTrace s l).decryptionContexts rid).batchId
        = (s.decryptionContexts rid).batchId ∧
    ((execTrace s l).decryptionContexts rid).stateHash
        = (s.decryptionContexts rid).stateHash ∧
    ((s.decryptionContexts rid).processed = true →
      ((execTrace s l).decryptionContexts rid).processed = true) :=
  execTrace_preserve
    (fun s' =>
      (s'.decryptionContexts rid).batchId = (s.decryptionContexts rid).batchId ∧
      (s'.decryptionContexts rid).stateHash = (s.decryptionContexts rid).stateHash ∧
      ((s.decryptionContexts rid).processed = true →
        (s'.decryptionContexts rid).processed = true))
    l s ⟨rfl, rfl, fun h => h⟩
    (fun s' i hi hP => by
      have hq : isReqWithRid rid i = false := by
        cases hq : isReqWithRid rid i
        · rfl
        · exact absurd (mem_reqRids hq hi) hnot
      obtain ⟨f1, f2, f3⟩ := (stepI_frame s' i).2.2.2.2.2.1 rid hq
      exact ⟨f1.trans hP.1, f2.trans hP.2.1, fun hp => f3 (hP.2.2 hp)⟩)

/-- C7: once a `DecryptionContext` has been stored (its `batchId` is
nonzero, as every stored context's batch passed the range check), it is
never deleted and its `batchId` and integrity-snapshot hash never change;
its `processed` field is monotone — it can only go from `false` to
`true`, and in particular no later operation (including later decryption
requests, which store contexts only under the fresh identifiers the
oracle returns — formalized as the trace's request identifiers being
pairwise distinct) resets `processed` of a processed context to `false`. -/
theorem claim_C7 (d : Nat) (l1 l2 : List Input) (rid : Nat)
    (hnodup : (reqRids (l1 ++ l2)).Nodup)
    (hcreated : ((execTrace (deploy d) l1).decryptionContexts rid).batchId ≠ 0) :
    ((execTrace (execTrace (deploy d) l1) l2).decryptionContexts rid).batchId
        = ((execTrace (deploy d) l1).decryptionContexts rid).batchId ∧
    ((execTrace (execTrace (deploy d) l1) l2).decryptionContexts rid).stateHash
        = ((execTrace (deploy d) l1).decryptionContexts rid).stateHash ∧
    (((execTrace (deploy d) l1).decryptionContexts rid).processed = true →
      ((execTrace (execTrace (deploy d) l1) l2).decryptionContexts rid).processed
        = true) := by
  have hmem : rid ∈ reqRids l1 := by
    by_contra hno
    have hdef := @execTrace_ctx_default rid l1 (deploy d) rfl hno
    rw [hdef] at hcreated
    exact hcreated rfl
  have hnot2 : rid ∉ reqRids l2 := by
    rw [reqRids_append] at hnodup
    exact fun h2 => (List.nodup_append.mp hnodup).2.2 hmem h2
  exact execTrace_ctx_fields _ hnot2

theorem claim_C7_witness :
    ((execTrace (execTrace (deploy 5) [.openBatch 5, .requestDec 5 100 1 9])
        [.callback 9 8 true]).decryptionContexts 9).batchId
      = ((execTrace (deploy 5)
          [.openBatch 5, .requestDec 5 100 1 9]).decryptionContexts 9).batchId ∧
    ((execTrace (execTrace (deploy 5) [.openBatch 5, .requestDec 5 100 1 9])
        [.callback 9 8 true]).decryptionContexts 9).stateHash
      = ((execTrace (deploy 5)
          [.openBatch 5, .requestDec 5 100 1 9]).decryptionContexts 9).stateHash ∧
    (((execTrace (deploy 5)
        [.openBatch 5, .requestDec 5 100 1 9]).decryptionContexts 9).processed = true →
      ((execTrace (execTrace (deploy 5) [.openBatch 5, .requestDec 5 100 1 9])
          [.callback 9 8 true]).decryptionContexts 9).processed = true) :=
  claim_C7 5 [.openBatch 5, .requestDec 5 100 1 9] [.callback 9 8 true] 9
    (by decide) (by decide)

theorem execTrace_append (s : State) (l1 l2 : List Input) :
    execTrace s (l1 ++ l2) = execTrace (execTrace s l1) l2 := by
  simp [execTrace, List.foldl_append]

theorem execTrace_cons (s : State) (i : Input) (l : List Input) :
    execTrace s (i :: l) = execTrace (stepI s i) l := rfl

/-- C1: from any reachable state, if a decryption request for batch `B`
is issued (storing a context under the oracle's identifier `rid`) and at
least one `submitEncryptedConnections` call to batch `B` succeeds before
the callback for that request — with no other transaction touching `rid`
in between, as the oracle does not reuse identifiers — then that
callback fails with `StateMismatch` for every cleartext payload and
every proof verdict (the recomputed hash can never again match the
snapshot, because the submission replaced the aggregate ciphertext by a
freshly allocated handle). -/
theorem claim_C1 (s0 : State) (hreach : Reachable s0)
    (sender now B rid : Nat)
    (hreq : isOk (applyInput s0 (.requestDec sender now B rid)) = true)
    (pre post : List Input) (a t u c : Nat)
    (hfresh1 : ∀ i ∈ pre, usesRid rid i = false)
    (hfresh2 : ∀ i ∈ post, usesRid rid i = false)
    (hcur : (execTrace (stepI s0 (.requestDec sender now B rid)) pre).currentBatchId = B)
    (hsub : isOk (applyInput (execTrace (stepI s0 (.requestDec sender now B rid)) pre)
      (.submit a t u c)) = true)
    (ct : Nat) (p : Bool) :
    myCallback
        (execTrace (stepI s0 (.requestDec sender now B rid))
          (pre ++ Input.submit a t u c :: post)) rid ct p
      = .error .StateMismatch := by
  cases hA : applyInput s0 (.requestDec sender now B rid) with
  | error e =>
      rw [hA] at hreq
      exact absurd hreq (by simp [isOk])
  | ok q =>
      obtain ⟨s1, ev⟩ := q
      have hstep1 : stepI s0 (.requestDec sender now B rid) = s1 := by
        simp [stepI, hA]
      rw [hstep1] at hcur hsub ⊢
      simp only [applyInput] at hA
      obtain ⟨-, -, -, hB0, hBle, hinit, hseq, -⟩ := requestDec_ok hA
      have hctx1 : s1.decryptionContexts rid =
          ⟨B, HashV.keccak [s0.encryptedTotalConnections B] thisAddr, false⟩ := by
        rw [hseq]
        exact if_pos rfl
      have hfhe1 : s1.fheNext = s0.fheNext := by rw [hseq]
      have hcur1 : s1.currentBatchId = s0.currentBatchId := by rw [hseq]
      have hbound := reachable_aggBound hreach
      have hlt1 : s0.encryptedTotalConnections B < s1.fheNext := by
        rw [hfhe1]
        exact hbound.2 B
      obtain ⟨hp1, hp2, hp3⟩ := execTrace_preserve
        (fun s => s0.encryptedTotalConnections B < s.fheNext ∧
          B ≤ s.currentBatchId ∧
          s.decryptionContexts rid =
            ⟨B, HashV.keccak [s0.encryptedTotalConnections B] thisAddr, false⟩)
        pre s1 ⟨hlt1, by rw [hcur1]; exact hBle, hctx1⟩
        (fun s' i hi hP => by
          obtain ⟨g1, g2, g3, g4, g5, g6, g7, g8⟩ := stepI_frame s' i
          exact ⟨lt_of_lt_of_le hP.1 g2, le_trans hP.2.1 g3,
            (g5 rid (hfresh1 i hi)).trans hP.2.2⟩)
      cases hS : applyInput (execTrace s1 pre) (.submit a t u c) with
      | error e =>
          rw [hS] at hsub
          exact absurd hsub (by simp [isOk])
      | ok q2 =>
          obtain ⟨s2, ev2⟩ := q2
          have hstep2 : stepI (execTrace s1 pre) (.submit a t u c) = s2 := by
            simp [stepI, hS]
          simp only [applyInput] at hS
          obtain ⟨-, -, -, -, -, hseq2, -⟩ := submit_ok hS
          have hsplit : execTrace s1 (pre ++ Input.submit a t u c :: post)
              = execTrace s2 post := by
            rw [execTrace_append, execTrace_cons, hstep2]
          have k1 : s2.encryptedTotalConnections B = (execTrace s1 pre).fheNext := by
            rw [hseq2]
            exact if_pos hcur.symm
          have k2 : s2.fheNext = (execTrace s1 pre).fheNext + 1 := by rw [hseq2]
          have k3 : s2.currentBatchId = (execTrace s1 pre).currentBatchId := by
            rw [hseq2]
          have k4 : s2.decryptionContexts rid
              = (execTrace s1 pre).decryptionContexts rid := by rw [hseq2]
          have q1 : s0.encryptedTotalConnections B < s2.fheNext := by
            rw [k2]
            exact Nat.lt_succ_of_lt hp1
          have q2' : B ≤ s2.currentBatchId := by
            rw [k3]
            exact hp2
          have q3 : s2.decryptionContexts rid =
              ⟨B, HashV.keccak [s0.encryptedTotalConnections B] thisAddr, false⟩ :=
            k4.trans hp3
          have q4 : s2.encryptedTotalConnections B ≠ s0.encryptedTotalConnections B := by
            rw [k1]
            exact (Nat.ne_of_lt hp1).symm
          obtain ⟨f1, f2, f3, f4⟩ := execTrace_preserve
            (fun s => s0.encryptedTotalConnections B < s.fheNext ∧
              B ≤ s.currentBatchId ∧
              s.decryptionContexts rid =
                ⟨B, HashV.keccak [s0.encryptedTotalConnections B] thisAddr, false⟩ ∧
              s.encryptedTotalConnections B ≠ s0.encryptedTotalConnections B)
            post s2 ⟨q1, q2', q3, q4⟩
            (fun s' i hi hP => by
              obtain ⟨g1, g2, g3, g4, g5, g6, g7, g8⟩ := stepI_frame s' i
              refine ⟨lt_of_lt_of_le hP.1 g2, le_trans hP.2.1 g3,
                (g5 rid (hfresh2 i hi)).trans hP.2.2.1, ?_⟩
              rcases g7 B hP.2.1 with heq | hge
              · rw [heq]
                exact hP.2.2.2
              · exact fun hcontra => (not_le.mpr hP.1) (hcontra ▸ hge))
          rw [hsplit]
          have hne : HashV.keccak
                [(execTrace s2 post).encryptedTotalConnections B] thisAddr
              ≠ HashV.keccak [s0.encryptedTotalConnections B] thisAddr := by
            intro hcontra
            injection hcontra with hl _
            injection hl with hx _
            exact f4 hx
          simp [myCallback, f3, hne]

theorem claim_C1_witness :
    myCallback
        (execTrace (stepI (execTrace (deploy 5) [.openBatch 5]) (.requestDec 5 100 1 9))
          ([] ++ Input.submit 5 200 7 1 :: []))
        9 0 true
      = .error .StateMismatch :=
  claim_C1 (execTrace (deploy 5) [.openBatch 5]) ⟨5, [.openBatch 5], rfl⟩ 5 100 1 9
    (by decide) [] [] 5 200 7 1
    (fun i hi => absurd hi (List.not_mem_nil i))
    (fun i hi => absurd hi (List.not_mem_nil i))
    (by decide) (by decide) 0 true

